import Mathlib

/-!
Verification of the personal invite link lifecycle engine of the botsbot
repository, against its natural-language specification.

The embedding models the SQLite store (`src/database.py`) as a Lean
structure `Store` holding the rows of the `channels`,
`personal_invite_links`, `link_usage` and `channel_stats` tables, plus the
autoincrement counters and the current wall-clock time (timestamps are
integers; `CURRENT_TIMESTAMP` is the store's `now` field, which only moves
forward via an explicit `tick` transition).  Each Python method that
touches the store becomes a Lean function on `Store`; a method is one
atomic transition, mirroring the fact that each method commits a single
SQLite transaction.  Settings (`bot_settings`) are modelled separately for
the settings round-trip claim.
-/

namespace Botsbot

/-- A row of the `channels` table (src/database.py:61-73).
`username` and `invite_link` are nullable columns. -/
structure Channel where
  id : Nat
  chat_id : String
  title : String
  username : Option String
  invite_link : Option String
  is_active : Bool
  bot_is_admin : Bool
  deriving Repr, DecidableEq

/-- A row of the `personal_invite_links` table (src/database.py:89-105). -/
structure Link where
  id : Nat
  user_id : Nat
  channel_id : Nat
  invite_link : String
  link_token : String
  expire_date : Int
  max_uses : Nat
  current_uses : Nat
  is_active : Bool
  created_at : Int
  used_at : Option Int
  deriving Repr, DecidableEq

/-- A row of the `link_usage` table (src/database.py:108-118). -/
structure Usage where
  link_id : Nat
  user_id : Nat
  used_at : Int
  success : Bool
  deriving Repr, DecidableEq

/-- A row of the `channel_stats` table (src/database.py:121-132);
`date` is the day of the timestamp.  The schema declares
`UNIQUE(channel_id, date)`. -/
structure StatRow where
  channel_id : Nat
  date : Int
  links_generated : Nat
  links_used : Nat
  deriving Repr, DecidableEq

/-- The persistent state owned by the link store. -/
structure Store where
  channels : List Channel
  links : List Link
  usage : List Usage
  stats : List StatRow
  nextChannelId : Nat
  nextLinkId : Nat
  now : Int
  deriving Repr, DecidableEq

/-- A freshly created database: empty tables, autoincrement counters at 1. -/
def emptyStore : Store :=
  { channels := [], links := [], usage := [], stats := [],
    nextChannelId := 1, nextLinkId := 1, now := 0 }

/-- `datetime.now().date()`: the calendar day of a timestamp. -/
def pyDate (t : Int) : Int := t / 86400

/-- The row filter of `Database.get_active_personal_link`
(src/database.py:494-495): `user_id = ? AND channel_id = ? AND
is_active = 1 AND expire_date > CURRENT_TIMESTAMP AND
current_uses < max_uses`. -/
def activePred (uid cid : Nat) (now : Int) (l : Link) : Bool :=
  l.user_id == uid && l.channel_id == cid && l.is_active &&
    decide (now < l.expire_date) && decide (l.current_uses < l.max_uses)

/-- `ORDER BY created_at DESC LIMIT 1`: the most recently created row of a
list (ties resolved towards the earlier row). -/
def pickLatest : List Link → Option Link
  | [] => none
  | l :: ls =>
    match pickLatest ls with
    | none => some l
    | some m => if l.created_at < m.created_at then some m else some l

/-- `Database.get_active_personal_link` (src/database.py:488-513). -/
def get_active_personal_link (s : Store) (uid cid : Nat) : Option Link :=
  pickLatest (s.links.filter (activePred uid cid s.now))

/-- Which counter `_update_channel_stats` bumps. -/
inductive StatField where
  | generated
  | used
  deriving Repr, DecidableEq

/-- `SET {stat_type} = {stat_type} + ?` on one row. -/
def bumpStat (f : StatField) (inc : Nat) (r : StatRow) : StatRow :=
  match f with
  | .generated => { r with links_generated := r.links_generated + inc }
  | .used => { r with links_used := r.links_used + inc }

/-- The `WHERE channel_id = ? AND date = ?` filter on `channel_stats`. -/
def statKey (cid : Nat) (d : Int) (r : StatRow) : Bool :=
  r.channel_id == cid && r.date == d

/-- `Database._update_channel_stats` (src/database.py:613-639): update the
day's row if one exists, otherwise insert a fresh row whose other counter
defaults to 0. -/
def updateChannelStats (stats : List StatRow) (cid : Nat) (f : StatField)
    (inc : Nat) (d : Int) : List StatRow :=
  if stats.any (statKey cid d) then
    stats.map (fun r => if statKey cid d r then bumpStat f inc r else r)
  else
    stats ++ [{ channel_id := cid, date := d,
                links_generated := match f with | .generated => inc | .used => 0,
                links_used := match f with | .generated => 0 | .used => inc }]

/-- Total `links_used` recorded for a channel on a day. -/
def statUsed (stats : List StatRow) (cid : Nat) (d : Int) : Nat :=
  ((stats.filter (statKey cid d)).map StatRow.links_used).sum

/-- The row filter of the SELECT in `Database.use_personal_link`
(src/database.py:553-556): `link_token = ? AND is_active = 1 AND
expire_date > CURRENT_TIMESTAMP`. -/
def consumeFindPred (now : Int) (token : String) (l : Link) : Bool :=
  l.link_token == token && l.is_active && decide (now < l.expire_date)

/-- `Database.use_personal_link` (src/database.py:549-607): look the
credential up by token among active unexpired rows; reject if none found
or the usage limit is reached (both return `False`); otherwise bump
`current_uses`, set `used_at`, deactivate if the new count reaches
`max_uses`, append a `link_usage` row with `success = 1`, and bump the
channel's `links_used` counter for today. -/
def use_personal_link (s : Store) (uid : Nat) (token : String) : Bool × Store :=
  match s.links.find? (consumeFindPred s.now token) with
  | none => (false, s)
  | some l =>
    if l.max_uses ≤ l.current_uses then (false, s)
    else
      let newUses := l.current_uses + 1
      let links1 := s.links.map (fun m =>
        if m.id == l.id then { m with current_uses := newUses, used_at := some s.now } else m)
      let links2 :=
        if l.max_uses ≤ newUses then
          links1.map (fun m => if m.id == l.id then { m with is_active := false } else m)
        else links1
      let usage1 := s.usage ++ [{ link_id := l.id, user_id := uid, used_at := s.now, success := true }]
      let stats1 :=
        match links2.find? (fun m => m.id == l.id) with
        | some m => updateChannelStats s.stats m.channel_id .used 1 (pyDate s.now)
        | none => s.stats
      (true, { s with links := links2, usage := usage1, stats := stats1 })

/-- Python string interpolation of a nullable column: `f"...{value}"`
renders `None` as the text `None`. -/
def pyStrOpt : Option String → String
  | some u => u
  | none => "None"

/-- The fallback of `LinkGeneratorService._create_personal_invite_link`
(src/services/link_generator.py:148,155):
`channel.get('invite_link') or f"https://t.me/{channel.get('username', '')}"`,
where `or` skips a `None` or empty invite link. -/
def fallbackLink (c : Channel) : String :=
  match c.invite_link with
  | some u => if u = "" then "https://t.me/" ++ pyStrOpt c.username else u
  | none => "https://t.me/" ++ pyStrOpt c.username

/-- The fallback of `Database.generate_personal_invite_link`
(src/database.py:445-447): `channel.get('invite_link') or
(f"https://t.me/{fallback_username}" if fallback_username else
"https://t.me/joinchat/error")` with `fallback_username =
channel.get('username') or ''`. -/
def dbFallback (c : Channel) : String :=
  let fu := match c.username with | some u => u | none => ""
  match c.invite_link with
  | some u =>
    if u = "" then (if fu = "" then "https://t.me/joinchat/error" else "https://t.me/" ++ fu)
    else u
  | none => if fu = "" then "https://t.me/joinchat/error" else "https://t.me/" ++ fu

/-- Outcome of the remote credential provider call
(`bot.create_chat_invite_link`): a URL, a `TelegramBadRequest` /
`TelegramForbiddenError` (degrades to the channel's fallback link), or any
other exception (the service gives up). -/
inductive Provider where
  | ok (url : String)
  | badRequest
  | failUnexpected
  deriving Repr, DecidableEq

/-- The shared `INSERT INTO personal_invite_links (user_id, channel_id,
invite_link, link_token, expire_date, max_uses) VALUES (...)` of
src/database.py:453-457 and src/services/link_generator.py:169-173,
followed by the `links_generated` stats bump.  Column defaults:
`current_uses = 0`, `is_active = 1`, `created_at = CURRENT_TIMESTAMP`,
`used_at = NULL`; `expire_date = now + timedelta(hours=ttl)`. -/
def mkLink (s : Store) (uid cid : Nat) (url token : String)
    (ttl maxUses : Nat) : Link :=
  { id := s.nextLinkId, user_id := uid, channel_id := cid,
    invite_link := url, link_token := token,
    expire_date := s.now + 3600 * (ttl : Int),
    max_uses := maxUses, current_uses := 0, is_active := true,
    created_at := s.now, used_at := none }

def insertLink (s : Store) (uid cid : Nat) (url token : String)
    (ttl maxUses : Nat) : Store :=
  { s with links := s.links ++ [mkLink s uid cid url token ttl maxUses],
           nextLinkId := s.nextLinkId + 1,
           stats := updateChannelStats s.stats cid .generated 1 (pyDate s.now) }

/-- `link_token` is declared UNIQUE: an insert with a token already present
raises and the method returns `None` without writing. -/
def tokenUsed (s : Store) (token : String) : Bool :=
  s.links.any (fun m => m.link_token == token)

/-- `Database.generate_personal_invite_link` (src/database.py:400-469):
reuse an existing active credential if one exists; otherwise look the
channel up, obtain a URL (provider result or fallback — the method
guarantees a non-empty URL, modelled by the `url = ""` fix-up of
src/database.py:445-447) and insert a new row.  `ttl` and `maxUses`
are the constructor-configured `LINK_EXPIRE_HOURS` / `MAX_LINK_USES`. -/
def generate_personal_invite_link (s : Store) (uid cid : Nat)
    (token url : String) (ttl maxUses : Nat) : Option String × Store :=
  match get_active_personal_link s uid cid with
  | some l => (some l.invite_link, s)
  | none =>
    match s.channels.find? (fun c => c.id == cid) with
    | none => (none, s)
    | some c =>
      let url1 := if url = "" then dbFallback c else url
      if tokenUsed s token then (none, s)
      else (some url1, insertLink s uid cid url1 token ttl maxUses)

/-- Result of one run of the service-level link creation: the returned URL
(or `None`), the store afterwards, and whether the remote provider was
called. -/
structure GenResult where
  result : Option String
  store : Store
  providerCalled : Bool
  deriving Repr, DecidableEq

/-- The URL the service settles on, and whether the provider was called
(src/services/link_generator.py:122-156): the provider is consulted only
when the bot is administrator; a Telegram error degrades to the channel's
fallback link; without administrator rights the fallback link is used
directly. -/
def pickUrl (c : Channel) (pr : Provider) : Option String × Bool :=
  if c.bot_is_admin then
    match pr with
    | .ok url => (some url, true)
    | .badRequest => (some (fallbackLink c), true)
    | .failUnexpected => (none, true)
  else (some (fallbackLink c), false)

/-- The tail of `_create_personal_invite_link`
(src/services/link_generator.py:158-185): give up on a missing or empty
URL, otherwise insert the new row (the UNIQUE token constraint turns a
duplicate token into a caught exception, i.e. no write). -/
def svcFinish (s : Store) (uid cid : Nat) (token : String)
    (picked : Option String × Bool) (ttl maxUses : Nat) : GenResult :=
  match picked with
  | (none, called) => ⟨none, s, called⟩
  | (some url, called) =>
    if url = "" then ⟨none, s, called⟩
    else if tokenUsed s token then ⟨none, s, called⟩
    else ⟨some url, insertLink s uid cid url token ttl maxUses, called⟩

/-- `LinkGeneratorService._create_personal_invite_link`
(src/services/link_generator.py:105-189): require an active channel;
reuse an existing active credential (no provider call, no insert);
otherwise pick a URL via `pickUrl` and finish via `svcFinish`.
`ttl` and `maxUses` are the `link_expire_hours` / `max_link_uses`
settings. -/
def createPersonalInviteLink (s : Store) (uid cid : Nat) (token : String)
    (pr : Provider) (ttl maxUses : Nat) : GenResult :=
  match s.channels.find? (fun c => c.id == cid) with
  | none => ⟨none, s, false⟩
  | some c =>
    if !c.is_active then ⟨none, s, false⟩
    else
      match get_active_personal_link s uid cid with
      | some l => ⟨some l.invite_link, s, false⟩
      | none => svcFinish s uid cid token (pickUrl c pr) ttl maxUses

/-- The deactivation step of `LinkGeneratorService.refresh_user_links`
(src/services/link_generator.py:259-264): `SET is_active = 0 WHERE
user_id = ? AND is_active = 1` (the same statement backs the menu
handlers in src/handlers/user.py:157-160,270-273). -/
def refresh_deactivate (s : Store) (uid : Nat) : Store :=
  { s with links := s.links.map (fun l =>
      if l.user_id == uid && l.is_active then { l with is_active := false } else l) }

/-- `Database.ban_user` (src/database.py:363-381): flags the user and
deactivates all of the user's links (`WHERE user_id = ?`). -/
def ban_user (s : Store) (uid : Nat) : Store :=
  { s with links := s.links.map (fun l =>
      if l.user_id == uid then { l with is_active := false } else l) }

/-- `Database.unban_user` (src/database.py:383-394): clears the user flag
only; no link row is touched. -/
def unban_user (s : Store) (_uid : Nat) : Store := s

/-- `Database.remove_channel` (src/database.py:244-264): deactivate the
channel row and every link whose `channel_id` equals the id selected by
`(SELECT id FROM channels WHERE chat_id = ?)` (`chat_id` is UNIQUE; a
NULL subquery matches no link). -/
def remove_channel (s : Store) (chatId : String) : Store :=
  let channels1 := s.channels.map (fun c =>
    if c.chat_id == chatId then { c with is_active := false } else c)
  match s.channels.find? (fun c => c.chat_id == chatId) with
  | none => { s with channels := channels1 }
  | some c =>
    { s with channels := channels1,
             links := s.links.map (fun l =>
               if l.channel_id == c.id then { l with is_active := false } else l) }

/-- `Database.cleanup_expired_links` (src/database.py:704-729): deactivate
every active expired row and return how many; then delete inactive rows
whose `expire_date` is older than `now - LINK_EXPIRE_HOURS * 7` hours. -/
def cleanup_expired_links (s : Store) (ttl : Nat) : Nat × Store :=
  let expiredActive := fun (l : Link) => decide (l.expire_date ≤ s.now) && l.is_active
  let expiredCount := (s.links.filter expiredActive).length
  let links1 := s.links.map (fun l =>
    if expiredActive l then { l with is_active := false } else l)
  let cutoff : Int := s.now - 3600 * ((ttl : Int) * 7)
  let links2 := links1.filter (fun l => !(decide (l.expire_date ≤ cutoff) && !l.is_active))
  (expiredCount, { s with links := links2 })

/-- The first statement of `Database.force_regenerate_all_links`
(src/database.py:958-960): `UPDATE personal_invite_links SET
is_active = 0` with no WHERE clause. -/
def force_deactivate_all (s : Store) : Store :=
  { s with links := s.links.map (fun l => { l with is_active := false }) }

/-- The link statement of `LinkCleanupService.emergency_cleanup`
(src/services/link_cleanup.py:244-246): deactivate every active link. -/
def emergency_deactivate (s : Store) : Store :=
  { s with links := s.links.map (fun l =>
      if l.is_active then { l with is_active := false } else l) }

/-- `LinkCleanupService.cleanup_user_links`
(src/services/link_cleanup.py:191-209): deactivate the user's active
links, stamping `used_at`. -/
def cleanup_user_links (s : Store) (uid : Nat) : Store :=
  { s with links := s.links.map (fun l =>
      if l.user_id == uid && l.is_active then
        { l with is_active := false, used_at := some s.now } else l) }

/-- `LinkCleanupService.cleanup_channel_links`
(src/services/link_cleanup.py:211-229). -/
def cleanup_channel_links (s : Store) (cid : Nat) : Store :=
  { s with links := s.links.map (fun l =>
      if l.channel_id == cid && l.is_active then { l with is_active := false } else l) }

/-- `LinkCleanupService.cleanup_specific_user_data`
(src/services/link_cleanup.py:395-430): deactivate all the user's links
and delete the user's usage rows. -/
def cleanup_user_data (s : Store) (uid : Nat) : Store :=
  { s with links := s.links.map (fun l =>
             if l.user_id == uid then { l with is_active := false } else l),
           usage := s.usage.filter (fun u => !(u.user_id == uid)) }

/-- `LinkCleanupService.cleanup_specific_channel_data`
(src/services/link_cleanup.py:432-470): delete the channel's links, its
stats rows, and the channel itself. -/
def cleanup_channel_data (s : Store) (cid : Nat) : Store :=
  { s with links := s.links.filter (fun l => !(l.channel_id == cid)),
           stats := s.stats.filter (fun r => !(r.channel_id == cid)),
           channels := s.channels.filter (fun c => !(c.id == cid)) }

/-- `LinkGeneratorService.cleanup_broken_links`
(src/services/link_generator.py:428-469): deactivates the links its loop
judged broken; modelled by the set of link ids it deactivates. -/
def cleanup_broken_links (s : Store) (ids : List Nat) : Store :=
  { s with links := s.links.map (fun l =>
      if ids.contains l.id then { l with is_active := false } else l) }

/-- `Database.add_channel` (src/database.py:192-205): `INSERT OR REPLACE`
keyed on the UNIQUE `chat_id`.  A conflicting channel row is deleted and
re-inserted under a fresh autoincrement id; with `PRAGMA foreign_keys=ON`
the delete cascades (`ON DELETE CASCADE`) to the old channel's links.
`bot_is_admin` is not in the column list, so it takes its default 0. -/
def add_channel (s : Store) (chatId title : String)
    (username inviteLink : Option String) : Store :=
  let victims := s.channels.filter (fun c => c.chat_id == chatId)
  let newC : Channel :=
    { id := s.nextChannelId, chat_id := chatId, title := title,
      username := username, invite_link := inviteLink,
      is_active := true, bot_is_admin := false }
  { s with channels := s.channels.filter (fun c => !(c.chat_id == chatId)) ++ [newC],
           links := s.links.filter (fun l => !(victims.any (fun c => c.id == l.channel_id))),
           nextChannelId := s.nextChannelId + 1 }

/-- `Database.update_channel` (src/database.py:207-242): update the given
optional fields of the channel row; no link row is touched. -/
def update_channel (s : Store) (chatId : String)
    (title username inviteLink : Option String) (admin : Option Bool) : Store :=
  { s with channels := s.channels.map (fun c =>
      if c.chat_id == chatId then
        { c with title := title.getD c.title,
                 username := match username with | some u => some u | none => c.username,
                 invite_link := match inviteLink with | some u => some u | none => c.invite_link,
                 bot_is_admin := admin.getD c.bot_is_admin }
      else c) }

/-- One transition of the engine: the store-mutating entry points of
src/database.py, src/services/link_generator.py and
src/services/link_cleanup.py (read-only reporting queries are omitted),
plus `tick`, the forward movement of `CURRENT_TIMESTAMP` between calls.
`ChannelMonitor` mutates the store only through `update_channel` and
`remove_channel`; `StatsService` only writes `channel_stats` and
`bot_settings`. -/
inductive Op where
  | tick (t : Int)
  | issueDb (uid cid : Nat) (token url : String) (ttl maxUses : Nat)
  | issueSvc (uid cid : Nat) (token : String) (pr : Provider) (ttl maxUses : Nat)
  | consume (uid : Nat) (token : String)
  | refreshDeact (uid : Nat)
  | ban (uid : Nat)
  | unban (uid : Nat)
  | removeCh (chatId : String)
  | reap (ttl : Nat)
  | deactAll
  | emergencyDeact
  | cleanupUser (uid : Nat)
  | cleanupChannel (cid : Nat)
  | userData (uid : Nat)
  | channelData (cid : Nat)
  | broken (ids : List Nat)
  | addCh (chatId title : String) (username inviteLink : Option String)
  | updCh (chatId : String) (title username inviteLink : Option String) (admin : Option Bool)
  deriving Repr

/-- Effect of one transition on the store.  `tick` never moves the clock
backwards. -/
def applyOp (op : Op) (s : Store) : Store :=
  match op with
  | .tick t => if s.now ≤ t then { s with now := t } else s
  | .issueDb uid cid token url ttl maxUses =>
      (generate_personal_invite_link s uid cid token url ttl maxUses).2
  | .issueSvc uid cid token pr ttl maxUses =>
      (createPersonalInviteLink s uid cid token pr ttl maxUses).store
  | .consume uid token => (use_personal_link s uid token).2
  | .refreshDeact uid => refresh_deactivate s uid
  | .ban uid => ban_user s uid
  | .unban uid => unban_user s uid
  | .removeCh chatId => remove_channel s chatId
  | .reap ttl => (cleanup_expired_links s ttl).2
  | .deactAll => force_deactivate_all s
  | .emergencyDeact => emergency_deactivate s
  | .cleanupUser uid => cleanup_user_links s uid
  | .cleanupChannel cid => cleanup_channel_links s cid
  | .userData uid => cleanup_user_data s uid
  | .channelData cid => cleanup_channel_data s cid
  | .broken ids => cleanup_broken_links s ids
  | .addCh chatId title username inviteLink => add_channel s chatId title username inviteLink
  | .updCh chatId title username inviteLink admin =>
      update_channel s chatId title username inviteLink admin

/-- Store states reachable from a fresh database by the engine's
transitions. -/
inductive Reachable : Store → Prop where
  | init : Reachable emptyStore
  | step (op : Op) {s : Store} : Reachable s → Reachable (applyOp op s)

/-! ### Generic list lemmas -/

/-- Filtering after a pointwise transformation that only ever falsifies the
predicate on the list's members cannot enlarge the filtered length. -/
theorem length_filter_map_le {α : Type} (f : α → α) (p : α → Bool) :
    ∀ (xs : List α), (∀ x ∈ xs, p (f x) = true → p x = true) →
      ((xs.map f).filter p).length ≤ (xs.filter p).length := by
  intro xs
  induction xs with
  | nil => intro _; exact Nat.le_refl _
  | cons x xs ih =>
    intro h
    have hx := h x (List.mem_cons_self x xs)
    have ihx := ih (fun y hy => h y (List.mem_cons_of_mem x hy))
    simp only [List.map_cons, List.filter_cons]
    cases hfx : p (f x) with
    | true =>
      rw [hx hfx]
      simpa using Nat.succ_le_succ ihx
    | false =>
      cases hpx : p x with
      | true => simpa using Nat.le_succ_of_le ihx
      | false => simpa using ihx

/-- Weakening the filter predicate on the list's members cannot shrink the
filtered length. -/
theorem length_filter_mono {α : Type} (p q : α → Bool) :
    ∀ (xs : List α), (∀ x ∈ xs, q x = true → p x = true) →
      (xs.filter q).length ≤ (xs.filter p).length := by
  intro xs
  induction xs with
  | nil => intro _; exact Nat.le_refl _
  | cons x xs ih =>
    intro h
    have hx := h x (List.mem_cons_self x xs)
    have ihx := ih (fun y hy => h y (List.mem_cons_of_mem x hy))
    simp only [List.filter_cons]
    cases hqx : q x with
    | true =>
      rw [hx hqx]
      simpa using Nat.succ_le_succ ihx
    | false =>
      cases hpx : p x with
      | true => simpa using Nat.le_succ_of_le ihx
      | false => simpa using ihx

theorem pickLatest_cons_ne_none (l : Link) (ls : List Link) :
    pickLatest (l :: ls) ≠ none := by
  simp only [pickLatest]
  cases hp : pickLatest ls with
  | none => simp
  | some m => by_cases hc : l.created_at < m.created_at <;> simp [hc]

theorem pickLatest_eq_none : ∀ {xs : List Link}, pickLatest xs = none ↔ xs = [] := by
  intro xs
  cases xs with
  | nil => simp [pickLatest]
  | cons l ls =>
    constructor
    · intro h; exact absurd h (pickLatest_cons_ne_none l ls)
    · intro h; exact absurd h (List.cons_ne_nil l ls)

theorem pickLatest_mem : ∀ {xs : List Link} {l : Link}, pickLatest xs = some l → l ∈ xs := by
  intro xs
  induction xs with
  | nil => intro l h; simp [pickLatest] at h
  | cons x xs ih =>
    intro l h
    simp only [pickLatest] at h
    cases hp : pickLatest xs with
    | none =>
      rw [hp] at h
      change some x = some l at h
      cases h
      exact List.mem_cons_self _ _
    | some m =>
      rw [hp] at h
      change (if x.created_at < m.created_at then some m else some x) = some l at h
      by_cases hc : x.created_at < m.created_at
      · rw [if_pos hc] at h
        cases h
        exact List.mem_cons_of_mem _ (ih hp)
      · rw [if_neg hc] at h
        cases h
        exact List.mem_cons_self _ _

theorem get_active_none_iff {s : Store} {uid cid : Nat} :
    get_active_personal_link s uid cid = none ↔
      s.links.filter (activePred uid cid s.now) = [] :=
  pickLatest_eq_none

theorem get_active_mem {s : Store} {uid cid : Nat} {l : Link}
    (h : get_active_personal_link s uid cid = some l) :
    l ∈ s.links ∧ activePred uid cid s.now l = true := by
  have hm := pickLatest_mem h
  exact ⟨List.mem_of_mem_filter hm, List.of_mem_filter hm⟩

/-! ### The inductive store invariant -/

/-- Number of rows for `(uid, cid)` that are simultaneously active,
unexpired and under their usage limit. -/
def countActive (s : Store) (uid cid : Nat) : Nat :=
  (s.links.filter (activePred uid cid s.now)).length

/-- The inductive invariant of the link store: (1) at most one
active/unexpired/under-limit row per `(user, channel)` pair; (2) usage
counters never exceed their limit; (3) autoincrement ids are bounded by
the counter; (4) link row ids are pairwise distinct. -/
def StoreInv (s : Store) : Prop :=
  (∀ uid cid, countActive s uid cid ≤ 1) ∧
  (∀ l ∈ s.links, l.current_uses ≤ l.max_uses) ∧
  (∀ l ∈ s.links, l.id < s.nextLinkId) ∧
  (s.links.map Link.id).Nodup

/-- Row transformations that keep every column relevant to the invariant
and only ever clear the active flag. -/
def Deactish (f : Link → Link) : Prop :=
  ∀ l, (f l).id = l.id ∧ (f l).user_id = l.user_id ∧ (f l).channel_id = l.channel_id ∧
    (f l).expire_date = l.expire_date ∧ (f l).current_uses = l.current_uses ∧
    (f l).max_uses = l.max_uses ∧ ((f l).is_active = true → l.is_active = true)

theorem activePred_of_deactish {f : Link → Link} (hf : Deactish f) (uid cid : Nat)
    (now : Int) (l : Link) (h : activePred uid cid now (f l) = true) :
    activePred uid cid now l = true := by
  obtain ⟨hid, hu, hc, he, hcu, hm, ha⟩ := hf l
  simp only [activePred, Bool.and_eq_true, beq_iff_eq, decide_eq_true_eq] at h ⊢
  obtain ⟨⟨⟨⟨h1, h2⟩, h3⟩, h4⟩, h5⟩ := h
  refine ⟨⟨⟨⟨?_, ?_⟩, ha h3⟩, ?_⟩, ?_⟩
  · rw [← hu]; exact h1
  · rw [← hc]; exact h2
  · rw [← he]; exact h4
  · rw [← hcu, ← hm]; exact h5

theorem deactish_if (c : Link → Bool) :
    Deactish (fun l => if c l then { l with is_active := false } else l) := by
  intro l
  by_cases h : c l <;> simp [h]

theorem deactish_if_usedAt (c : Link → Bool) (t : Int) :
    Deactish (fun l => if c l then { l with is_active := false, used_at := some t } else l) := by
  intro l
  by_cases h : c l <;> simp [h]

theorem deactish_const : Deactish (fun l => { l with is_active := false }) := by
  intro l
  simp

/-! ### Preservation of the invariant by each transition -/

theorem storeInv_of_eq {s s' : Store} (hlinks : s'.links = s.links)
    (hnow : s'.now = s.now) (hnext : s'.nextLinkId = s.nextLinkId)
    (h : StoreInv s) : StoreInv s' := by
  obtain ⟨h1, h2, h3, h4⟩ := h
  refine ⟨?_, ?_, ?_, ?_⟩
  · intro uid cid
    unfold countActive
    rw [hlinks, hnow]
    exact h1 uid cid
  · rw [hlinks]; exact h2
  · rw [hlinks, hnext]; exact h3
  · rw [hlinks]; exact h4

theorem storeInv_mapGen {s s' : Store} {f : Link → Link}
    (hid : ∀ m, (f m).id = m.id)
    (hpred : ∀ uid cid, ∀ m ∈ s.links,
      activePred uid cid s.now (f m) = true → activePred uid cid s.now m = true)
    (huse : ∀ m ∈ s.links, m.current_uses ≤ m.max_uses →
      (f m).current_uses ≤ (f m).max_uses)
    (hlinks : s'.links = s.links.map f) (hnow : s'.now = s.now)
    (hnext : s'.nextLinkId = s.nextLinkId) (h : StoreInv s) : StoreInv s' := by
  obtain ⟨h1, h2, h3, h4⟩ := h
  refine ⟨?_, ?_, ?_, ?_⟩
  · intro uid cid
    unfold countActive
    rw [hlinks, hnow]
    exact Nat.le_trans
      (length_filter_map_le f (activePred uid cid s.now) s.links (hpred uid cid))
      (h1 uid cid)
  · intro l hl
    rw [hlinks] at hl
    obtain ⟨m, hm, rfl⟩ := List.mem_map.mp hl
    exact huse m hm (h2 m hm)
  · intro l hl
    rw [hlinks] at hl
    obtain ⟨m, hm, rfl⟩ := List.mem_map.mp hl
    rw [hid m, hnext]
    exact h3 m hm
  · rw [hlinks, List.map_map]
    have : (Link.id ∘ f) = Link.id := funext (fun l => hid l)
    rw [this]
    exact h4

theorem storeInv_mapDeactish {s s' : Store} {f : Link → Link} (hf : Deactish f)
    (hlinks : s'.links = s.links.map f) (hnow : s'.now = s.now)
    (hnext : s'.nextLinkId = s.nextLinkId) (h : StoreInv s) : StoreInv s' := by
  refine storeInv_mapGen (fun m => (hf m).1)
    (fun uid cid m _ hx => activePred_of_deactish hf uid cid s.now m hx)
    (fun m _ hm => ?_) hlinks hnow hnext h
  obtain ⟨-, -, -, -, hcu, hmx, -⟩ := hf m
  rw [hcu, hmx]
  exact hm

theorem storeInv_filterLinks {s s' : Store} (keep : Link → Bool)
    (hlinks : s'.links = s.links.filter keep) (hnow : s'.now = s.now)
    (hnext : s'.nextLinkId = s.nextLinkId) (h : StoreInv s) : StoreInv s' := by
  obtain ⟨h1, h2, h3, h4⟩ := h
  have hsub : List.Sublist (s.links.filter keep) s.links := List.filter_sublist s.links
  refine ⟨?_, ?_, ?_, ?_⟩
  · intro uid cid
    unfold countActive
    rw [hlinks, hnow]
    exact Nat.le_trans (List.Sublist.length_le
      (hsub.filter (activePred uid cid s.now))) (h1 uid cid)
  · intro l hl
    rw [hlinks] at hl
    exact h2 l (List.mem_of_mem_filter hl)
  · intro l hl
    rw [hlinks] at hl
    rw [hnext]
    exact h3 l (List.mem_of_mem_filter hl)
  · rw [hlinks]
    exact h4.sublist (hsub.map Link.id)

theorem storeInv_tick {s : Store} (t : Int) (h : StoreInv s) :
    StoreInv (applyOp (.tick t) s) := by
  obtain ⟨h1, h2, h3, h4⟩ := h
  simp only [applyOp]
  by_cases hle : s.now ≤ t
  · rw [if_pos hle]
    refine ⟨?_, h2, h3, h4⟩
    intro uid cid
    unfold countActive
    refine Nat.le_trans (length_filter_mono _ _ s.links ?_) (h1 uid cid)
    intro l _ hl
    simp only [activePred, Bool.and_eq_true, decide_eq_true_eq] at hl ⊢
    obtain ⟨⟨⟨⟨hu, hc⟩, hact⟩, hexp⟩, hlim⟩ := hl
    exact ⟨⟨⟨⟨hu, hc⟩, hact⟩, lt_of_le_of_lt hle hexp⟩, hlim⟩
  · rw [if_neg hle]
    exact ⟨h1, h2, h3, h4⟩

theorem storeInv_insert {s : Store} {uid cid : Nat} {url token : String}
    {ttl maxUses : Nat}
    (hnone : get_active_personal_link s uid cid = none) (h : StoreInv s) :
    StoreInv (insertLink s uid cid url token ttl maxUses) := by
  obtain ⟨h1, h2, h3, h4⟩ := h
  have hempty := get_active_none_iff.mp hnone
  refine ⟨?_, ?_, ?_, ?_⟩
  · intro uid' cid'
    unfold countActive
    simp only [insertLink, List.filter_append]
    cases hp : activePred uid' cid' s.now (mkLink s uid cid url token ttl maxUses) with
    | false =>
      simp only [List.filter_cons, List.filter_nil, hp, List.length_append,
        List.length_nil, Nat.add_zero]
      exact h1 uid' cid'
    | true =>
      have huid : uid' = uid ∧ cid' = cid := by
        simp only [activePred, mkLink, Bool.and_eq_true, beq_iff_eq] at hp
        exact ⟨hp.1.1.1.1.symm, hp.1.1.1.2.symm⟩
      obtain ⟨rfl, rfl⟩ := huid
      rw [hempty]
      simp [List.filter_cons, hp]
  · intro l hl
    simp only [insertLink, List.mem_append, List.mem_singleton] at hl
    cases hl with
    | inl hmem => exact h2 l hmem
    | inr heq => rw [heq]; exact Nat.zero_le _
  · intro l hl
    simp only [insertLink, List.mem_append, List.mem_singleton] at hl
    cases hl with
    | inl hmem => exact Nat.lt_trans (h3 l hmem) (Nat.lt_succ_self _)
    | inr heq => rw [heq]; exact Nat.lt_succ_self _
  · simp only [insertLink, List.map_append, List.map_cons, List.map_nil]
    rw [List.nodup_append]
    refine ⟨h4, List.nodup_singleton _, ?_⟩
    intro a ha hb
    rw [List.mem_singleton] at hb
    obtain ⟨m, hm, hma⟩ := List.mem_map.mp ha
    rw [hb] at hma
    have := h3 m hm
    rw [hma] at this
    exact absurd this (Nat.lt_irrefl _)

theorem storeInv_consume {s : Store} (uid : Nat) (token : String) (h : StoreInv s) :
    StoreInv (use_personal_link s uid token).2 := by
  obtain ⟨h1, h2, h3, h4⟩ := h
  cases hf : s.links.find? (consumeFindPred s.now token) with
  | none =>
    simp only [use_personal_link, hf]
    exact ⟨h1, h2, h3, h4⟩
  | some l =>
    have hmem : l ∈ s.links := List.mem_of_find?_eq_some hf
    have huniq : ∀ m ∈ s.links, m.id = l.id → m = l := fun m hm hid =>
      List.inj_on_of_nodup_map h4 hm hmem (by rw [hid])
    by_cases hlim : l.max_uses ≤ l.current_uses
    · simp only [use_personal_link, hf, if_pos hlim]
      exact ⟨h1, h2, h3, h4⟩
    · have huse : l.current_uses < l.max_uses := Nat.lt_of_not_le hlim
      simp only [use_personal_link, hf, if_neg hlim]
      by_cases hreach : l.max_uses ≤ l.current_uses + 1
      · rw [if_pos hreach]
        have hcomp :
            (s.links.map (fun m => if m.id == l.id then
                { m with current_uses := l.current_uses + 1, used_at := some s.now }
              else m)).map (fun m => if m.id == l.id then { m with is_active := false } else m)
            = s.links.map (fun m => if m.id == l.id then
                { m with current_uses := l.current_uses + 1, used_at := some s.now,
                         is_active := false } else m) := by
          rw [List.map_map]
          refine List.map_congr_left ?_
          intro m _
          by_cases hid : m.id = l.id <;> simp [hid]
        refine storeInv_mapGen (s := s)
          (f := fun m => if m.id == l.id then
            { m with current_uses := l.current_uses + 1, used_at := some s.now,
                     is_active := false } else m)
          ?_ ?_ ?_ hcomp rfl rfl ⟨h1, h2, h3, h4⟩
        · intro m
          by_cases hm : m.id = l.id <;> simp [hm]
        · intro uid' cid' m hm hpm
          by_cases hid : m.id = l.id
          · simp [hid, activePred] at hpm
          · simpa [hid] using hpm
        · intro m hm hle
          by_cases hid : m.id = l.id
          · have hml := huniq m hm hid
            subst hml
            simpa using Nat.succ_le_of_lt huse
          · simpa [hid] using hle
      · rw [if_neg hreach]
        have hreach' : l.current_uses + 1 ≤ l.max_uses :=
          Nat.le_of_lt_succ (Nat.succ_lt_succ (Nat.lt_of_not_le (fun hc =>
            hreach (Nat.le_succ_of_le hc))))
        refine storeInv_mapGen (s := s)
          (f := fun m => if m.id == l.id then
            { m with current_uses := l.current_uses + 1, used_at := some s.now } else m)
          ?_ ?_ ?_ rfl rfl rfl ⟨h1, h2, h3, h4⟩
        · intro m
          by_cases hm : m.id = l.id <;> simp [hm]
        · intro uid' cid' m hm hpm
          by_cases hid : m.id = l.id
          · have hml := huniq m hm hid
            subst hml
            simp only [beq_self_eq_true, if_true] at hpm
            simp only [activePred, Bool.and_eq_true, beq_iff_eq, decide_eq_true_eq] at hpm ⊢
            obtain ⟨⟨⟨⟨hu, hc⟩, hact⟩, hexp⟩, -⟩ := hpm
            exact ⟨⟨⟨⟨hu, hc⟩, hact⟩, hexp⟩, huse⟩
          · simpa [hid] using hpm
        · intro m hm hle
          by_cases hid : m.id = l.id
          · have hml := huniq m hm hid
            subst hml
            simpa using hreach'
          · simpa [hid] using hle

/-- The store returned by the database-level generator is either untouched
or extends the old store by one inserted row, the latter only when no
active credential existed. -/
theorem generate_store_cases (s : Store) (uid cid : Nat) (token url : String)
    (ttl maxUses : Nat) :
    (generate_personal_invite_link s uid cid token url ttl maxUses).2 = s ∨
    (get_active_personal_link s uid cid = none ∧
      ∃ u, (generate_personal_invite_link s uid cid token url ttl maxUses).2 =
        insertLink s uid cid u token ttl maxUses) := by
  unfold generate_personal_invite_link
  split
  · left; rfl
  next hg =>
    split
    · left; rfl
    next c hc =>
      by_cases ht : tokenUsed s token = true
      · left
        rw [if_pos ht]
      · right
        exact ⟨hg, (if url = "" then dbFallback c else url), by rw [if_neg ht]⟩

/-- The store after `svcFinish` is either untouched or extends the old
store by one inserted row. -/
theorem svcFinish_store_cases (s : Store) (uid cid : Nat) (token : String)
    (picked : Option String × Bool) (ttl maxUses : Nat) :
    (svcFinish s uid cid token picked ttl maxUses).store = s ∨
    ∃ u, (svcFinish s uid cid token picked ttl maxUses).store =
      insertLink s uid cid u token ttl maxUses := by
  obtain ⟨u, called⟩ := picked
  cases u with
  | none => left; rfl
  | some url =>
    by_cases hu : url = ""
    · left; simp only [svcFinish, if_pos hu]
    · by_cases ht : tokenUsed s token = true
      · left; simp only [svcFinish, if_neg hu, if_pos ht]
      · right; exact ⟨url, by simp only [svcFinish, if_neg hu, if_neg ht]⟩

/-- Likewise for the service-level generator. -/
theorem svc_store_cases (s : Store) (uid cid : Nat) (token : String) (pr : Provider)
    (ttl maxUses : Nat) :
    (createPersonalInviteLink s uid cid token pr ttl maxUses).store = s ∨
    (get_active_personal_link s uid cid = none ∧
      ∃ u, (createPersonalInviteLink s uid cid token pr ttl maxUses).store =
        insertLink s uid cid u token ttl maxUses) := by
  unfold createPersonalInviteLink
  split
  · left; rfl
  · split
    · left; rfl
    · split
      · left; rfl
      next hg =>
        rcases svcFinish_store_cases s uid cid token _ ttl maxUses with heq | ⟨u, heq⟩
        · left; exact heq
        · right; exact ⟨hg, u, heq⟩

theorem storeInv_empty : StoreInv emptyStore := by
  refine ⟨?_, ?_, ?_, ?_⟩
  · intro uid cid; simp [countActive, emptyStore]
  · simp [emptyStore]
  · simp [emptyStore]
  · simp [emptyStore]

/-- Every transition of the engine preserves the store invariant. -/
theorem storeInv_apply (op : Op) (s : Store) (h : StoreInv s) :
    StoreInv (applyOp op s) := by
  cases op with
  | tick t => exact storeInv_tick t h
  | issueDb uid cid token url ttl maxUses =>
    show StoreInv (generate_personal_invite_link s uid cid token url ttl maxUses).2
    rcases generate_store_cases s uid cid token url ttl maxUses with heq | ⟨hg, u, heq⟩
    · rw [heq]; exact h
    · rw [heq]; exact storeInv_insert hg h
  | issueSvc uid cid token pr ttl maxUses =>
    show StoreInv (createPersonalInviteLink s uid cid token pr ttl maxUses).store
    rcases svc_store_cases s uid cid token pr ttl maxUses with heq | ⟨hg, u, heq⟩
    · rw [heq]; exact h
    · rw [heq]; exact storeInv_insert hg h
  | consume uid token => exact storeInv_consume uid token h
  | refreshDeact uid =>
    exact storeInv_mapDeactish (s := s)
      (deactish_if (fun l => l.user_id == uid && l.is_active)) rfl rfl rfl h
  | ban uid =>
    exact storeInv_mapDeactish (s := s) (deactish_if (fun l => l.user_id == uid)) rfl rfl rfl h
  | unban uid => exact storeInv_of_eq (s := s) rfl rfl rfl h
  | removeCh chatId =>
    show StoreInv (remove_channel s chatId)
    unfold remove_channel
    cases hc : s.channels.find? (fun c => c.chat_id == chatId) with
    | none => exact storeInv_of_eq (s := s) rfl rfl rfl h
    | some c =>
      exact storeInv_mapDeactish (s := s)
        (deactish_if (fun l => l.channel_id == c.id)) rfl rfl rfl h
  | reap ttl =>
    show StoreInv (cleanup_expired_links s ttl).2
    have h1 : StoreInv { s with links := s.links.map (fun l =>
        if decide (l.expire_date ≤ s.now) && l.is_active then
          { l with is_active := false } else l) } :=
      storeInv_mapDeactish (s := s)
        (deactish_if (fun l => decide (l.expire_date ≤ s.now) && l.is_active)) rfl rfl rfl h
    exact storeInv_filterLinks
      (s := { s with links := s.links.map (fun l =>
        if decide (l.expire_date ≤ s.now) && l.is_active then
          { l with is_active := false } else l) })
      (fun l => !(decide (l.expire_date ≤ s.now - 3600 * ((ttl : Int) * 7)) && !l.is_active))
      rfl rfl rfl h1
  | deactAll =>
    exact storeInv_mapDeactish (s := s) deactish_const rfl rfl rfl h
  | emergencyDeact =>
    exact storeInv_mapDeactish (s := s) (deactish_if (fun l => l.is_active)) rfl rfl rfl h
  | cleanupUser uid =>
    exact storeInv_mapDeactish (s := s)
      (deactish_if_usedAt (fun l => l.user_id == uid && l.is_active) s.now) rfl rfl rfl h
  | cleanupChannel cid =>
    exact storeInv_mapDeactish (s := s)
      (deactish_if (fun l => l.channel_id == cid && l.is_active)) rfl rfl rfl h
  | userData uid =>
    exact storeInv_mapDeactish (s := s)
      (deactish_if (fun l => l.user_id == uid)) rfl rfl rfl h
  | channelData cid =>
    exact storeInv_filterLinks (s := s) (fun l => !(l.channel_id == cid)) rfl rfl rfl h
  | broken ids =>
    exact storeInv_mapDeactish (s := s)
      (deactish_if (fun l => ids.contains l.id)) rfl rfl rfl h
  | addCh chatId title username inviteLink =>
    exact storeInv_filterLinks (s := s)
      (fun l => !((s.channels.filter (fun c : Channel => c.chat_id == chatId)).any
        (fun c : Channel => c.id == l.channel_id))) rfl rfl rfl h
  | updCh chatId title username inviteLink admin =>
    exact storeInv_of_eq (s := s) rfl rfl rfl h

/-- Every reachable store state satisfies the invariant. -/
theorem reachable_storeInv : ∀ {s : Store}, Reachable s → StoreInv s := by
  intro s h
  induction h with
  | init => exact storeInv_empty
  | step op h ih => exact storeInv_apply op _ ih

/-! ### Concrete reachable states used by the witnesses -/

/-- One registered channel (id 1, not administrator, with a fallback
invite link). -/
def st1 : Store := applyOp (.addCh "c1" "Chan" none (some "https://t.me/x")) emptyStore

/-- One fresh single-use credential (token `tok`) for user 7 in channel 1,
TTL one hour. -/
def st2 : Store := applyOp (.issueSvc 7 1 "tok" (.ok "u") 1 1) st1

/-- The credential of `st2` after its one allowed consumption: the row is
exhausted and inactive. -/
def st3 : Store := applyOp (.consume 7 "tok") st2

theorem reachable_st1 : Reachable st1 :=
  Reachable.step _ Reachable.init

theorem reachable_st2 : Reachable st2 :=
  Reachable.step _ reachable_st1

theorem reachable_st3 : Reachable st3 :=
  Reachable.step _ reachable_st2

/-! ### Shape of each transition's effect on the link table -/

/-- The common shape of a transition's effect on the link table: a
filtered id-preserving, never-reactivating row map, or the append of one
fresh row carrying the next autoincrement id. -/
def LinksShape (s : Store) (links' : List Link) : Prop :=
  (∃ f keep, (∀ m : Link, (f m).id = m.id) ∧
     (∀ m : Link, m.is_active = false → (f m).is_active = false) ∧
     links' = (s.links.map f).filter keep) ∨
  (∃ newL : Link, newL.id = s.nextLinkId ∧ links' = s.links ++ [newL])

theorem shape_map_case {s : Store} {links' : List Link} (f : Link → Link)
    (hid : ∀ m : Link, (f m).id = m.id)
    (hact : ∀ m : Link, m.is_active = false → (f m).is_active = false)
    (heq : links' = s.links.map f) : LinksShape s links' :=
  Or.inl ⟨f, fun _ => true, hid, hact, by rw [List.filter_true]; exact heq⟩

theorem shape_filter_case {s : Store} {links' : List Link} (keep : Link → Bool)
    (heq : links' = s.links.filter keep) : LinksShape s links' :=
  Or.inl ⟨fun m => m, keep, fun _ => rfl, fun _ hm => hm,
    by rw [List.map_id']; exact heq⟩

theorem shape_id_case {s : Store} {links' : List Link}
    (heq : links' = s.links) : LinksShape s links' :=
  Or.inl ⟨fun m => m, fun _ => true, fun _ => rfl, fun _ hm => hm,
    by rw [List.map_id', List.filter_true]; exact heq⟩

theorem ifdeact_id (c : Link → Bool) (m : Link) :
    (if c m then { m with is_active := false } else m).id = m.id := by
  by_cases h : c m <;> simp [h]

theorem ifdeact_act (c : Link → Bool) (m : Link) (hm : m.is_active = false) :
    (if c m then { m with is_active := false } else m).is_active = false := by
  by_cases h : c m <;> simp [h, hm]

theorem ifdeactUsed_id (c : Link → Bool) (t : Int) (m : Link) :
    (if c m then { m with is_active := false, used_at := some t } else m).id = m.id := by
  by_cases h : c m <;> simp [h]

theorem ifdeactUsed_act (c : Link → Bool) (t : Int) (m : Link)
    (hm : m.is_active = false) :
    (if c m then { m with is_active := false, used_at := some t } else m).is_active
      = false := by
  by_cases h : c m <;> simp [h, hm]

/-- Every transition's effect on the link table has the `LinksShape`
form. -/
theorem applyOp_links_shape (op : Op) (s : Store) :
    LinksShape s (applyOp op s).links := by
  cases op with
  | tick t =>
    refine shape_id_case ?_
    by_cases hnt : s.now ≤ t <;> simp [applyOp, hnt]
  | issueDb uid cid token url ttl maxUses =>
    rcases generate_store_cases s uid cid token url ttl maxUses with heq | ⟨-, u, heq⟩
    · refine shape_id_case ?_
      show (generate_personal_invite_link s uid cid token url ttl maxUses).2.links = _
      rw [heq]
    · refine Or.inr ⟨mkLink s uid cid u token ttl maxUses, rfl, ?_⟩
      show (generate_personal_invite_link s uid cid token url ttl maxUses).2.links = _
      rw [heq]; rfl
  | issueSvc uid cid token pr ttl maxUses =>
    rcases svc_store_cases s uid cid token pr ttl maxUses with heq | ⟨-, u, heq⟩
    · refine shape_id_case ?_
      show (createPersonalInviteLink s uid cid token pr ttl maxUses).store.links = _
      rw [heq]
    · refine Or.inr ⟨mkLink s uid cid u token ttl maxUses, rfl, ?_⟩
      show (createPersonalInviteLink s uid cid token pr ttl maxUses).store.links = _
      rw [heq]; rfl
  | consume uid token =>
    show LinksShape s (use_personal_link s uid token).2.links
    cases hf : s.links.find? (consumeFindPred s.now token) with
    | none =>
      refine shape_id_case ?_
      simp [use_personal_link, hf]
    | some l =>
      by_cases hlim : l.max_uses ≤ l.current_uses
      · refine shape_id_case ?_
        simp [use_personal_link, hf, if_pos hlim]
      · by_cases hreach : l.max_uses ≤ l.current_uses + 1
        · refine shape_map_case
            (fun m => if m.id == l.id then
              { m with current_uses := l.current_uses + 1, used_at := some s.now,
                       is_active := false } else m) ?_ ?_ ?_
          · intro m; by_cases hm : m.id = l.id <;> simp [hm]
          · intro m hm; by_cases hid : m.id = l.id <;> simp [hid, hm]
          · simp only [use_personal_link, hf, if_neg hlim, if_pos hreach]
            rw [List.map_map]
            refine List.map_congr_left ?_
            intro m _
            by_cases hid : m.id = l.id <;> simp [hid]
        · refine shape_map_case
            (fun m => if m.id == l.id then
              { m with current_uses := l.current_uses + 1, used_at := some s.now }
              else m) ?_ ?_ ?_
          · intro m; by_cases hm : m.id = l.id <;> simp [hm]
          · intro m hm; by_cases hid : m.id = l.id <;> simp [hid, hm]
          · simp only [use_personal_link, hf, if_neg hlim, if_neg hreach]
  | refreshDeact uid =>
    exact shape_map_case _ (ifdeact_id (fun l => l.user_id == uid && l.is_active))
      (ifdeact_act _) rfl
  | ban uid =>
    exact shape_map_case _ (ifdeact_id (fun l => l.user_id == uid)) (ifdeact_act _) rfl
  | unban uid => exact shape_id_case rfl
  | removeCh chatId =>
    show LinksShape s (remove_channel s chatId).links
    unfold remove_channel
    cases hc : s.channels.find? (fun c => c.chat_id == chatId) with
    | none => exact shape_id_case rfl
    | some c =>
      exact shape_map_case _ (ifdeact_id (fun l => l.channel_id == c.id))
        (ifdeact_act _) rfl
  | reap ttl =>
    exact Or.inl ⟨fun l => if decide (l.expire_date ≤ s.now) && l.is_active then
        { l with is_active := false } else l,
      fun l => !(decide (l.expire_date ≤ s.now - 3600 * ((ttl : Int) * 7)) && !l.is_active),
      ifdeact_id _, ifdeact_act _, rfl⟩
  | deactAll =>
    exact shape_map_case (fun l => { l with is_active := false })
      (fun m => rfl) (fun m _ => rfl) rfl
  | emergencyDeact =>
    exact shape_map_case _ (ifdeact_id (fun l => l.is_active)) (ifdeact_act _) rfl
  | cleanupUser uid =>
    exact shape_map_case _
      (ifdeactUsed_id (fun l => l.user_id == uid && l.is_active) s.now)
      (ifdeactUsed_act _ _) rfl
  | cleanupChannel cid =>
    exact shape_map_case _ (ifdeact_id (fun l => l.channel_id == cid && l.is_active))
      (ifdeact_act _) rfl
  | userData uid =>
    exact shape_map_case _ (ifdeact_id (fun l => l.user_id == uid)) (ifdeact_act _) rfl
  | channelData cid =>
    exact shape_filter_case (fun l => !(l.channel_id == cid)) rfl
  | broken ids =>
    exact shape_map_case _ (ifdeact_id (fun l => ids.contains l.id)) (ifdeact_act _) rfl
  | addCh chatId title username inviteLink =>
    exact shape_filter_case
      (fun l => !((s.channels.filter (fun c : Channel => c.chat_id == chatId)).any
        (fun c : Channel => c.id == l.channel_id))) rfl
  | updCh chatId title username inviteLink admin =>
    exact shape_id_case rfl

/-! ### Claim theorems -/

/-- C1: for every user `uid` and channel `cid`, every store state reachable
from the empty store by the engine's operations (issue/generate, consume,
the deactivations, reaping, and the passage of time) holds at most one
`personal_invite_links` row that simultaneously has `is_active = 1`,
`expire_date > now` and `current_uses < max_uses`. -/
theorem C1_at_most_one_active {s : Store} (h : Reachable s) (uid cid : Nat) :
    (s.links.filter (activePred uid cid s.now)).length ≤ 1 :=
  (reachable_storeInv h).1 uid cid

theorem C1_at_most_one_active_witness :
    (st2.links.filter (activePred 7 1 st2.now)).length ≤ 1 :=
  C1_at_most_one_active reachable_st2 7 1

/-- The exhausted, deactivated credential row of `st3`. -/
def link3 : Link :=
  { id := 1, user_id := 7, channel_id := 1, invite_link := "https://t.me/x",
    link_token := "tok", expire_date := 3600, max_uses := 1, current_uses := 1,
    is_active := false, created_at := 0, used_at := some 0 }

/-- C9: no operation of the system ever turns a credential row's
`is_active` flag from 0 back to 1: in a reachable state, any row that is
inactive stays inactive (as the row with the same id) across every further
operation — in particular `unban_user` does not reactivate the rows that
`ban_user` deactivated. -/
theorem C9_no_reactivation {s : Store} (h : Reachable s) (op : Op) :
    ∀ l ∈ s.links, l.is_active = false →
      ∀ l' ∈ (applyOp op s).links, l'.id = l.id → l'.is_active = false := by
  intro l hl hinact l' hl' hid
  obtain ⟨-, -, h3, h4⟩ := reachable_storeInv h
  rcases applyOp_links_shape op s with ⟨f, keep, hfid, hfact, heq⟩ | ⟨newL, hnid, heq⟩
  · rw [heq] at hl'
    obtain ⟨m, hm, rfl⟩ := List.mem_map.mp (List.mem_of_mem_filter hl')
    have hmid : m.id = l.id := by rw [← hfid m]; exact hid
    have hml : m = l := List.inj_on_of_nodup_map h4 hm hl hmid
    refine hfact m ?_
    rw [hml]
    exact hinact
  · rw [heq] at hl'
    rcases List.mem_append.mp hl' with hmem | hnew
    · have hml : l' = l := List.inj_on_of_nodup_map h4 hmem hl hid
      rw [hml]
      exact hinact
    · rw [List.mem_singleton] at hnew
      subst hnew
      rw [hnid] at hid
      have hbound := h3 l hl
      rw [← hid] at hbound
      exact absurd hbound (Nat.lt_irrefl _)

/-- `use_personal_link` on a token without an active unexpired row is a
rejected no-op. -/
theorem consume_notFound {s : Store} {uid : Nat} {token : String}
    (hf : s.links.find? (consumeFindPred s.now token) = none) :
    use_personal_link s uid token = (false, s) := by
  simp [use_personal_link, hf]

/-- N successive calls of `use_personal_link` on the same token (each by
the `uids.head` consumer first, and so on). -/
def consumeMany (s : Store) (uids : List Nat) (token : String) : List Bool × Store :=
  match uids with
  | [] => ([], s)
  | u :: us =>
    let r := use_personal_link s u token
    let rest := consumeMany r.2 us token
    (r.1 :: rest.1, rest.2)

theorem consumeMany_notFound {s : Store} {token : String}
    (hf : s.links.find? (consumeFindPred s.now token) = none) :
    ∀ uids, consumeMany s uids token = (List.replicate uids.length false, s) := by
  intro uids
  induction uids with
  | nil => rfl
  | cons u us ih =>
    simp only [consumeMany, consume_notFound hf, ih, List.length_cons]
    rw [List.replicate_succ]

/-- C2: a credential with `max_uses = 1` that is found fresh
(`current_uses = 0`) by its token yields exactly one success and N−1
failures over N consumption attempts; and in every reachable state no
credential's `current_uses` exceeds its `max_uses`.  (The token hypothesis
mirrors the schema's UNIQUE constraint on `link_token`.) -/
theorem C2_single_use :
    (∀ (s : Store) (token : String) (l : Link) (u : Nat) (us : List Nat),
      s.links.find? (consumeFindPred s.now token) = some l →
      l.max_uses = 1 → l.current_uses = 0 →
      (∀ m ∈ s.links, m.link_token = token → m = l) →
      (consumeMany s (u :: us) token).1.count true = 1 ∧
      (consumeMany s (u :: us) token).1.count false = (u :: us).length - 1) ∧
    (∀ s : Store, Reachable s → ∀ l ∈ s.links, l.current_uses ≤ l.max_uses) := by
  constructor
  · intro s token l u us hf hmax huses htok
    have hlim : ¬ l.max_uses ≤ l.current_uses := by omega
    have hreach : l.max_uses ≤ l.current_uses + 1 := by omega
    have hfst : (use_personal_link s u token).1 = true := by
      simp only [use_personal_link, hf, if_neg hlim]
    have hlinks2 : (use_personal_link s u token).2.links =
        (s.links.map (fun m => if m.id == l.id then
          { m with current_uses := l.current_uses + 1, used_at := some s.now } else m)).map
          (fun m => if m.id == l.id then { m with is_active := false } else m) := by
      simp only [use_personal_link, hf, if_neg hlim, if_pos hreach]
    have hnow2 : (use_personal_link s u token).2.now = s.now := by
      simp only [use_personal_link, hf, if_neg hlim, if_pos hreach]
    have hf' : (use_personal_link s u token).2.links.find?
        (consumeFindPred (use_personal_link s u token).2.now token) = none := by
      rw [hlinks2, hnow2, List.find?_eq_none]
      intro m' hm'
      rw [List.map_map] at hm'
      obtain ⟨m, hm, rfl⟩ := List.mem_map.mp hm'
      by_cases htk : m.link_token = token
      · have hml := htok m hm htk
        subst hml
        simp [consumeFindPred]
      · by_cases hid : m.id = l.id <;> simp [consumeFindPred, hid, htk]
    have hrest := consumeMany_notFound hf' us
    simp only [consumeMany, hfst, hrest, List.count_cons, List.count_replicate,
      List.length_cons]
    constructor
    · simp
    · simp
  · intro s h l hl
    exact (reachable_storeInv h).2.1 l hl

/-- The fresh single-use credential row of `st2`. -/
def link2 : Link :=
  { id := 1, user_id := 7, channel_id := 1, invite_link := "https://t.me/x",
    link_token := "tok", expire_date := 3600, max_uses := 1, current_uses := 0,
    is_active := true, created_at := 0, used_at := none }

theorem filter_map_pres {α : Type} (h : α → α) (p : α → Bool)
    (hp : ∀ x, p (h x) = p x) :
    ∀ xs : List α, (xs.map h).filter p = (xs.filter p).map h := by
  intro xs
  induction xs with
  | nil => rfl
  | cons x xs ih =>
    simp only [List.map_cons, List.filter_cons, hp x]
    cases hx : p x with
    | true => simp [ih]
    | false => simp [ih]

/-- Bumping a counter on the day's row adds exactly the increment to the
day's `links_used` total (the `UNIQUE(channel_id, date)` constraint is the
`huniq` hypothesis). -/
theorem statUsed_update {stats : List StatRow} {cid : Nat} {d : Int}
    (huniq : (stats.filter (statKey cid d)).length ≤ 1) :
    statUsed (updateChannelStats stats cid .used 1 d) cid d =
      statUsed stats cid d + 1 := by
  have hp : ∀ r, statKey cid d (if statKey cid d r then bumpStat .used 1 r else r)
      = statKey cid d r := by
    intro r
    by_cases hr : statKey cid d r
    · rw [if_pos hr]
      simp [bumpStat, statKey]
    · rw [if_neg hr]
  unfold updateChannelStats
  cases hany : stats.any (statKey cid d) with
  | false =>
    have hnone : ∀ x ∈ stats, ¬ statKey cid d x = true := by
      intro x hx
      exact (List.any_eq_false.mp hany) x hx
    have hfil : stats.filter (statKey cid d) = [] := List.filter_eq_nil_iff.mpr hnone
    simp only [hany, Bool.false_eq_true, if_false]
    unfold statUsed
    rw [List.filter_append, hfil]
    simp [statKey]
  | true =>
    have hne : stats.filter (statKey cid d) ≠ [] := by
      obtain ⟨x, hx, hpx⟩ := List.any_eq_true.mp hany
      intro hcon
      have : x ∈ stats.filter (statKey cid d) := List.mem_filter.mpr ⟨hx, hpx⟩
      rw [hcon] at this
      exact absurd this (List.not_mem_nil x)
    have hlen : (stats.filter (statKey cid d)).length = 1 := by
      cases hcase : stats.filter (statKey cid d) with
      | nil => exact absurd hcase hne
      | cons a as =>
        rw [hcase] at huniq
        simp only [List.length_cons] at huniq ⊢
        omega
    obtain ⟨x, hx⟩ := List.length_eq_one.mp hlen
    have hxk : statKey cid d x = true :=
      List.of_mem_filter (hx ▸ List.mem_cons_self x [])
    simp only [hany, if_true]
    unfold statUsed
    rw [filter_map_pres _ _ hp, hx]
    simp [hxk, bumpStat]

/-- `find?` by id over an id-preserving row map locates the image of the
unique row with that id. -/
theorem find?_id_map_eq {s : Store} {l : Link} (h4 : (s.links.map Link.id).Nodup)
    (hmem : l ∈ s.links) (G : Link → Link) (hGid : ∀ m, (G m).id = m.id) :
    (s.links.map G).find? (fun m => m.id == l.id) = some (G l) := by
  rw [List.find?_map]
  have hcomp : ((fun m : Link => m.id == l.id) ∘ G) = (fun m : Link => m.id == l.id) := by
    funext m
    simp [Function.comp, hGid m]
  rw [hcomp]
  cases hfind : s.links.find? (fun m => m.id == l.id) with
  | none =>
    exfalso
    exact absurd (by simp : (l.id == l.id) = true)
      (List.find?_eq_none.mp hfind l hmem)
  | some x =>
    have hxmem := List.mem_of_find?_eq_some hfind
    have hxid : x.id = l.id := by simpa using List.find?_some hfind
    have hxl : x = l := List.inj_on_of_nodup_map h4 hxmem hmem hxid
    rw [hxl]
    rfl

/-- As `find?_id_map_eq`, packaged with the image's unchanged
`channel_id`. -/
theorem find?_id_map_channel {s : Store} {l : Link}
    (h4 : (s.links.map Link.id).Nodup) (hmem : l ∈ s.links) (G : Link → Link)
    (hGid : ∀ m, (G m).id = m.id) (hGch : ∀ m, (G m).channel_id = m.channel_id) :
    ∃ x, (s.links.map G).find? (fun m => m.id == l.id) = some x ∧
      x.channel_id = l.channel_id :=
  ⟨G l, find?_id_map_eq h4 hmem G hGid, hGch l⟩

/-- C3: consuming a token that identifies an active, unexpired,
under-limit credential succeeds; it bumps that row's `current_uses` by
exactly one and stamps `used_at`, clears `is_active` exactly when the new
count reaches `max_uses`, leaves every other row untouched, appends one
successful `link_usage` row, and adds one to the channel's `links_used`
counter for the current day.  In the embedding `use_personal_link` is a
single transition, which models the method's one-transaction atomicity. -/
theorem C3_consume_effects (s : Store) (uid : Nat) (token : String) (l : Link)
    (hf : s.links.find? (consumeFindPred s.now token) = some l)
    (hlt : l.current_uses < l.max_uses)
    (h4 : (s.links.map Link.id).Nodup)
    (hstat : (s.stats.filter (statKey l.channel_id (pyDate s.now))).length ≤ 1) :
    (use_personal_link s uid token).1 = true ∧
    (∃ l', l' ∈ (use_personal_link s uid token).2.links ∧ l'.id = l.id ∧
      l'.current_uses = l.current_uses + 1 ∧ l'.used_at = some s.now ∧
      (l'.is_active = false ↔ l.current_uses + 1 = l.max_uses)) ∧
    (∀ m ∈ s.links, m.id ≠ l.id → m ∈ (use_personal_link s uid token).2.links) ∧
    (use_personal_link s uid token).2.usage =
      s.usage ++ [{ link_id := l.id, user_id := uid, used_at := s.now, success := true }] ∧
    statUsed (use_personal_link s uid token).2.stats l.channel_id (pyDate s.now) =
      statUsed s.stats l.channel_id (pyDate s.now) + 1 := by
  have hlim : ¬ l.max_uses ≤ l.current_uses := Nat.not_le_of_lt hlt
  have hmem := List.mem_of_find?_eq_some hf
  have hpred := List.find?_some hf
  have hact : l.is_active = true := by
    simp only [consumeFindPred, Bool.and_eq_true] at hpred
    exact hpred.1.2
  by_cases hreach : l.max_uses ≤ l.current_uses + 1
  · have heqmax : l.current_uses + 1 = l.max_uses := Nat.le_antisymm hlt hreach
    refine ⟨?_, ?_, ?_, ?_, ?_⟩
    · simp only [use_personal_link, hf, if_neg hlim]
    · refine ⟨{ l with current_uses := l.current_uses + 1, used_at := some s.now, is_active := false }, ?_, rfl, rfl, rfl, iff_of_true rfl heqmax⟩
      simp only [use_personal_link, hf, if_neg hlim, if_pos hreach]
      rw [List.map_map]
      exact List.mem_map.mpr ⟨l, hmem, by simp⟩
    · intro m hm hmid
      simp only [use_personal_link, hf, if_neg hlim, if_pos hreach]
      rw [List.map_map]
      exact List.mem_map.mpr ⟨m, hm, by simp [hmid]⟩
    · simp only [use_personal_link, hf, if_neg hlim, if_pos hreach]
    · simp only [use_personal_link, hf, if_neg hlim, if_pos hreach]
      rw [List.map_map]
      obtain ⟨x, hx, hxch⟩ := find?_id_map_channel h4 hmem
        ((fun m : Link => if m.id == l.id then { m with is_active := false } else m) ∘ (fun m : Link => if m.id == l.id then { m with current_uses := l.current_uses + 1, used_at := some s.now } else m))
        (fun m => by by_cases hid : m.id = l.id <;> simp [Function.comp, hid])
        (fun m => by by_cases hid : m.id = l.id <;> simp [Function.comp, hid])
      rw [hx]
      show statUsed (updateChannelStats s.stats x.channel_id StatField.used 1
        (pyDate s.now)) l.channel_id (pyDate s.now) = _
      rw [hxch]
      exact statUsed_update hstat
  · have hne : l.current_uses + 1 ≠ l.max_uses := by omega
    refine ⟨?_, ?_, ?_, ?_, ?_⟩
    · simp only [use_personal_link, hf, if_neg hlim]
    · refine ⟨{ l with current_uses := l.current_uses + 1, used_at := some s.now }, ?_, rfl, rfl, rfl, iff_of_false (by simp [hact]) hne⟩
      simp only [use_personal_link, hf, if_neg hlim, if_neg hreach]
      exact List.mem_map.mpr ⟨l, hmem, by simp⟩
    · intro m hm hmid
      simp only [use_personal_link, hf, if_neg hlim, if_neg hreach]
      exact List.mem_map.mpr ⟨m, hm, by simp [hmid]⟩
    · simp only [use_personal_link, hf, if_neg hlim, if_neg hreach]
    · simp only [use_personal_link, hf, if_neg hlim, if_neg hreach]
      obtain ⟨x, hx, hxch⟩ := find?_id_map_channel h4 hmem
        (fun m : Link => if m.id == l.id then { m with current_uses := l.current_uses + 1, used_at := some s.now } else m)
        (fun m => by by_cases hid : m.id = l.id <;> simp [hid])
        (fun m => by by_cases hid : m.id = l.id <;> simp [hid])
      rw [hx]
      show statUsed (updateChannelStats s.stats x.channel_id StatField.used 1
        (pyDate s.now)) l.channel_id (pyDate s.now) = _
      rw [hxch]
      exact statUsed_update hstat

theorem C3_consume_effects_witness :
    (use_personal_link st2 7 "tok").1 = true ∧
    (∃ l', l' ∈ (use_personal_link st2 7 "tok").2.links ∧ l'.id = link2.id ∧
      l'.current_uses = link2.current_uses + 1 ∧ l'.used_at = some st2.now ∧
      (l'.is_active = false ↔ link2.current_uses + 1 = link2.max_uses)) ∧
    (∀ m ∈ st2.links, m.id ≠ link2.id → m ∈ (use_personal_link st2 7 "tok").2.links) ∧
    (use_personal_link st2 7 "tok").2.usage =
      st2.usage ++ [{ link_id := link2.id, user_id := 7, used_at := st2.now, success := true }] ∧
    statUsed (use_personal_link st2 7 "tok").2.stats link2.channel_id (pyDate st2.now) =
      statUsed st2.stats link2.channel_id (pyDate st2.now) + 1 :=
  C3_consume_effects st2 7 "tok" link2 (by decide) (by decide) (by decide) (by decide)

theorem C2_single_use_witness :
    ((consumeMany st2 [5, 6, 9] "tok").1.count true = 1 ∧
      (consumeMany st2 [5, 6, 9] "tok").1.count false = 2) ∧
    link2.current_uses ≤ link2.max_uses :=
  ⟨C2_single_use.1 st2 "tok" link2 5 [6, 9] (by decide) rfl rfl (by decide),
   C2_single_use.2 st2 reachable_st2 link2 (by decide)⟩

theorem C9_no_reactivation_witness :
    link3 ∈ st3.links ∧ link3.is_active = false ∧
    link3 ∈ (applyOp (Op.issueSvc 7 1 "tok2" (Provider.ok "u") 1 1) st3).links ∧
    link3.is_active = false :=
  ⟨by decide, by decide, by decide,
    C9_no_reactivation reachable_st3 (Op.issueSvc 7 1 "tok2" (Provider.ok "u") 1 1)
      link3 (by decide) (by decide) link3 (by decide) rfl⟩

/-- A reachable store holding an active, unexpired credential whose usage
limit is already reached (`max_uses = 0`, issued with the `max_link_uses`
setting at 0). -/
def stLim : Store := applyOp (.issueSvc 8 1 "tokz" (.ok "u") 1 0) st1

theorem reachable_stLim : Reachable stLim :=
  Reachable.step _ reachable_st1

/-- The at-limit credential row of `stLim`. -/
def linkLim : Link :=
  { id := 1, user_id := 8, channel_id := 1, invite_link := "https://t.me/x",
    link_token := "tokz", expire_date := 3600, max_uses := 0, current_uses := 0,
    is_active := true, created_at := 0, used_at := none }

/-- Counterexample to C4 as stated: both rejection modes of
`use_personal_link` — unknown/inactive/expired token, and usage limit
already reached — return the same bare `false` with the store untouched,
so the rejected consumption is *not* recorded as a `UsageEvent` with
`success = false` (the usage log keeps no failure row at all). -/
theorem C4_counterexample :
    (use_personal_link st3 9 "bogus").1 = false ∧
    (use_personal_link st3 9 "bogus").2 = st3 ∧
    (use_personal_link st3 9 "bogus").2.usage.all (fun e => e.success) = true ∧
    (use_personal_link stLim 9 "tokz").1 = false ∧
    (use_personal_link stLim 9 "tokz").2.usage = List.nil := by
  refine ⟨by decide, by decide, by decide, by decide, by decide⟩

/-- C4 (amended): `use_personal_link` fails with the same plain `false`
both when no active, unexpired row matches the token (NotFound — the two
cases are distinguished only in log text) and when the matched
credential's limit is already reached (LimitExceeded); in both cases the
store, including the `link_usage` log, is left unchanged — rejected
consumptions are not recorded as UsageEvents. -/
theorem C4_consume_failure (s : Store) (uid : Nat) (token : String) :
    (s.links.find? (consumeFindPred s.now token) = none →
      use_personal_link s uid token = (false, s)) ∧
    (∀ l, s.links.find? (consumeFindPred s.now token) = some l →
      l.max_uses ≤ l.current_uses →
      use_personal_link s uid token = (false, s)) := by
  constructor
  · intro hf
    exact consume_notFound hf
  · intro l hf hlim
    simp [use_personal_link, hf, if_pos hlim]

theorem C4_consume_failure_witness :
    use_personal_link st3 9 "bogus" = (false, st3) ∧
    use_personal_link stLim 9 "tokz" = (false, stLim) :=
  ⟨(C4_consume_failure st3 9 "bogus").1 (by decide),
   (C4_consume_failure stLim 9 "tokz").2 linkLim (by decide) (by decide)⟩

/-- C6: the deactivation step of `refresh_user_links` voids every
credential of the user at once: immediately afterwards
`get_active_personal_link` returns none for every channel, and every row
of the user is inactive even if it was never consumed. -/
theorem C6_refresh_deactivates (s : Store) (uid : Nat) :
    (∀ cid, get_active_personal_link (refresh_deactivate s uid) uid cid = none) ∧
    (∀ l ∈ (refresh_deactivate s uid).links, l.user_id = uid → l.is_active = false) := by
  have hkey : ∀ l ∈ (refresh_deactivate s uid).links, l.user_id = uid →
      l.is_active = false := by
    intro l hl huid
    simp only [refresh_deactivate] at hl
    obtain ⟨m, hm, rfl⟩ := List.mem_map.mp hl
    by_cases hc : (m.user_id == uid && m.is_active) = true
    · simp [hc]
    · rw [if_neg hc] at huid ⊢
      simpa [huid] using hc
  refine ⟨?_, hkey⟩
  intro cid
  rw [get_active_none_iff]
  refine List.filter_eq_nil_iff.mpr ?_
  intro l hl hp
  simp only [activePred, Bool.and_eq_true, beq_iff_eq, decide_eq_true_eq] at hp
  obtain ⟨⟨⟨⟨hu, -⟩, hact⟩, -⟩, -⟩ := hp
  rw [hkey l hl hu] at hact
  exact absurd hact (by simp)

/-- C7: one run of `cleanup_expired_links` deactivates exactly the active
expired rows and returns their count; immediately afterwards every expired
surviving row is inactive, so a second run with unchanged time deactivates
zero additional rows. -/
theorem C7_reap_idempotent (s : Store) (ttl : Nat) :
    (cleanup_expired_links s ttl).1 =
      (s.links.filter (fun l => decide (l.expire_date ≤ s.now) && l.is_active)).length ∧
    (∀ l ∈ (cleanup_expired_links s ttl).2.links,
      l.expire_date ≤ s.now → l.is_active = false) ∧
    (cleanup_expired_links (cleanup_expired_links s ttl).2 ttl).1 = 0 := by
  have hdeact : ∀ l ∈ (cleanup_expired_links s ttl).2.links,
      l.expire_date ≤ s.now → l.is_active = false := by
    intro l hl hexp
    have hl' := List.mem_of_mem_filter hl
    obtain ⟨m, hm, rfl⟩ := List.mem_map.mp hl'
    by_cases hc : (decide (m.expire_date ≤ s.now) && m.is_active) = true
    · simp [hc]
    · rw [if_neg hc] at hexp ⊢
      simpa [hexp] using hc
  refine ⟨rfl, hdeact, ?_⟩
  have hnil : (cleanup_expired_links s ttl).2.links.filter
      (fun l => decide (l.expire_date ≤ s.now) && l.is_active) = [] := by
    refine List.filter_eq_nil_iff.mpr ?_
    intro l hl hp
    rw [Bool.and_eq_true, decide_eq_true_eq] at hp
    have := hdeact l hl hp.1
    rw [this] at hp
    exact absurd hp.2 (by simp)
  show ((cleanup_expired_links s ttl).2.links.filter
    (fun l => decide (l.expire_date ≤ s.now) && l.is_active)).length = 0
  rw [hnil]
  rfl

/-- C8: `remove_channel` deactivates the channel row and every credential
of that channel, so afterwards `get_active_personal_link` returns none for
every user of that channel — in particular a channel with two active
credentials ends with both rows inactive. -/
theorem C8_remove_channel_cascades (s : Store) (chatId : String) (c : Channel)
    (hc : s.channels.find? (fun ch => ch.chat_id == chatId) = some c) :
    (∀ ch ∈ (remove_channel s chatId).channels, ch.chat_id = chatId →
      ch.is_active = false) ∧
    (∀ l ∈ (remove_channel s chatId).links, l.channel_id = c.id →
      l.is_active = false) ∧
    (∀ uid, get_active_personal_link (remove_channel s chatId) uid c.id = none) := by
  have hlinks : ∀ l ∈ (remove_channel s chatId).links, l.channel_id = c.id →
      l.is_active = false := by
    intro l hl hcid
    simp only [remove_channel, hc] at hl
    obtain ⟨m, hm, rfl⟩ := List.mem_map.mp hl
    by_cases hcc : (m.channel_id == c.id) = true
    · simp [hcc]
    · rw [if_neg hcc] at hcid
      exact absurd (by simp [hcid] : (m.channel_id == c.id) = true) hcc
  refine ⟨?_, hlinks, ?_⟩
  · intro ch hch hchat
    simp only [remove_channel, hc] at hch
    obtain ⟨c', hc', rfl⟩ := List.mem_map.mp hch
    by_cases hcc : (c'.chat_id == chatId) = true
    · simp [hcc]
    · rw [if_neg hcc] at hchat
      exact absurd (by simp [hchat] : (c'.chat_id == chatId) = true) hcc
  · intro uid
    rw [get_active_none_iff]
    refine List.filter_eq_nil_iff.mpr ?_
    intro l hl hp
    simp only [activePred, Bool.and_eq_true, beq_iff_eq, decide_eq_true_eq] at hp
    obtain ⟨⟨⟨⟨-, hcid⟩, hact⟩, -⟩, -⟩ := hp
    rw [hlinks l hl hcid] at hact
    exact absurd hact (by simp)

/-- The channel row of `st1`/`st2`. -/
def chan1 : Channel :=
  { id := 1, chat_id := "c1", title := "Chan", username := none,
    invite_link := some "https://t.me/x", is_active := true, bot_is_admin := false }

theorem C8_remove_channel_cascades_witness :
    get_active_personal_link (remove_channel st2 "c1") 5 chan1.id = none :=
  (C8_remove_channel_cascades st2 "c1" chan1 (by decide)).2.2 5

/-- After a guarded insert, the freshly inserted row is the unique active
credential the store hands back for its `(user, channel)` pair. -/
theorem get_active_after_insert {s : Store} {uid cid : Nat} (url token : String)
    {ttl maxUses : Nat} (hg : get_active_personal_link s uid cid = none)
    (httl : 0 < ttl) (hmax : 0 < maxUses) :
    get_active_personal_link (insertLink s uid cid url token ttl maxUses) uid cid =
      some (mkLink s uid cid url token ttl maxUses) := by
  have hempty := get_active_none_iff.mp hg
  show pickLatest ((s.links ++ [mkLink s uid cid url token ttl maxUses]).filter
    (activePred uid cid s.now)) = _
  rw [List.filter_append, hempty]
  have hpred : activePred uid cid s.now (mkLink s uid cid url token ttl maxUses)
      = true := by
    simp [activePred, mkLink]
    omega
  simp [hpred, pickLatest]

/-- C5: with an active channel, a link-generation request that finds an
active, unexpired, under-limit credential for `(uid, cid)` returns that
credential's URL unchanged, makes no provider call and writes nothing;
one that finds none and succeeds inserts exactly one new row (expire_date
= now + the configured TTL, the configured `max_uses`, `current_uses` = 0,
`is_active` = 1), so that an immediate second request returns the same URL
without a provider call and without writing. -/
theorem C5_generation_dedup (s : Store) (uid cid : Nat) (token : String)
    (pr : Provider) (ttl maxUses : Nat) (c : Channel)
    (hc : s.channels.find? (fun ch => ch.id == cid) = some c)
    (hact : c.is_active = true) :
    (∀ l, get_active_personal_link s uid cid = some l →
      createPersonalInviteLink s uid cid token pr ttl maxUses =
        ⟨some l.invite_link, s, false⟩) ∧
    (get_active_personal_link s uid cid = none → 0 < ttl → 0 < maxUses →
      ∀ url s₁ called,
        createPersonalInviteLink s uid cid token pr ttl maxUses =
          ⟨some url, s₁, called⟩ →
        (∃ newL : Link, s₁.links = s.links ++ [newL] ∧ newL.user_id = uid ∧
          newL.channel_id = cid ∧ newL.invite_link = url ∧
          newL.expire_date = s.now + 3600 * (ttl : Int) ∧ newL.max_uses = maxUses ∧
          newL.current_uses = 0 ∧ newL.is_active = true) ∧
        s₁.now = s.now ∧
        (∀ token' pr', createPersonalInviteLink s₁ uid cid token' pr' ttl maxUses =
          ⟨some url, s₁, false⟩)) := by
  constructor
  · intro l hl
    simp [createPersonalInviteLink, hc, hact, hl]
  · intro hg httl hmax url s₁ called heq
    simp only [createPersonalInviteLink, hc, hact, Bool.not_true, Bool.false_eq_true,
      if_false, hg] at heq
    rcases hpk : pickUrl c pr with ⟨uopt, b⟩
    rw [hpk] at heq
    cases uopt with
    | none => exact absurd heq (by simp [svcFinish])
    | some u =>
      by_cases hu : u = ""
      · simp only [svcFinish, if_pos hu] at heq
        exact absurd heq (by simp)
      · by_cases ht : tokenUsed s token = true
        · simp only [svcFinish, if_neg hu, if_pos ht] at heq
          exact absurd heq (by simp)
        · simp only [svcFinish, if_neg hu, if_neg ht] at heq
          injection heq with h1 h2 h3
          injection h1 with h1
          subst h1
          subst h2
          subst h3
          refine ⟨⟨mkLink s uid cid u token ttl maxUses, rfl, rfl, rfl, rfl, rfl, rfl,
            rfl, rfl⟩, rfl, ?_⟩
          intro token' pr'
          have hfind2 : (insertLink s uid cid u token ttl maxUses).channels.find?
              (fun ch => ch.id == cid) = some c := hc
          have hga := get_active_after_insert u token hg httl hmax
          simp [createPersonalInviteLink, hfind2, hact, hga, mkLink]

/-- The store right after the first (miss-path) request of the C5
scenario. -/
def stG : Store := (createPersonalInviteLink st1 7 1 "t" (Provider.ok "u") 1 1).store

theorem C5_generation_dedup_witness :
    createPersonalInviteLink st1 7 1 "t" (Provider.ok "u") 1 1 =
      ⟨some "https://t.me/x", stG, false⟩ ∧
    createPersonalInviteLink stG 7 1 "t2" Provider.badRequest 1 1 =
      ⟨some "https://t.me/x", stG, false⟩ :=
  ⟨by decide,
    ((C5_generation_dedup st1 7 1 "t" (Provider.ok "u") 1 1 chan1 (by decide) rfl).2
      (by decide) (by decide) (by decide) "https://t.me/x" stG false
      (by decide)).2.2 "t2" Provider.badRequest⟩

/-! ### The `bot_settings` key-value model (src/database.py:861-910)

`set_setting` serializes booleans/numbers/containers with `json.dumps` and
everything else with `str(value)`; `get_setting` first tries
`json.loads` on the stored text and falls back to a `"true"/"false"` /
`isdigit` reinterpretation of the stripped, lowercased text before
returning the raw string.  The model covers the boolean, integer and
string values the bot stores.  The JSON number grammar is modelled in
full, so digit-leading text that `json.loads` rejects (e.g. `007` or
`12abc`) correctly takes the code's fallback path.  `PVal.pother` stands
for decoded values outside the modelled universe (floats, `null`, the
non-finite literals) and for stored text beginning a JSON string, array
or object, whose decoding the model leaves undetermined and about which
it makes no claim.  `strip`/`lower`/`isdigit` are modelled on ASCII
text. -/

end Botsbot
